import Mathlib

/-!
Verification of the file-downloader extension core (content script, service
worker, popup).  JavaScript strings are modelled as Lean `String`s (lists of
characters); the handful of string primitives the code relies on
(`trim`, `toLowerCase`, regex replaces, `split`, `decodeURIComponent`,
`parseInt`) are embedded as executable functions below.  Platform primitives
(`new URL`, `fetch`, `chrome.downloads`) are treated as external
collaborators: URL parses and probe responses are inputs to the embedded
functions.
-/

/-! ## JavaScript string primitives -/

/-- The character class `\s` of JavaScript regular expressions (also the set
stripped by `String.prototype.trim`). -/
def isJsWhitespace (c : Char) : Bool :=
  c == ' ' || c == '\t' || c == '\n' || c == '\r' ||
  c.toNat == 0x0b || c.toNat == 0x0c || c.toNat == 0xa0 || c.toNat == 0x1680 ||
  (0x2000 <= c.toNat && c.toNat <= 0x200A) ||
  c.toNat == 0x2028 || c.toNat == 0x2029 || c.toNat == 0x202F ||
  c.toNat == 0x205F || c.toNat == 0x3000 || c.toNat == 0xFEFF

/-- ASCII lowering of one character (the code only ever lowercases ASCII
data: extensions, keywords, header names). -/
def jsToLowerChar (c : Char) : Char :=
  if 'A' ≤ c && c ≤ 'Z' then Char.ofNat (c.toNat + 32) else c

/-- Embeds `String.prototype.toLowerCase` on the ASCII range. -/
def jsToLower (s : String) : String :=
  (s.data.map jsToLowerChar).asString

/-- Embeds `String.prototype.trim` on a character list. -/
def jsTrimL (l : List Char) : List Char :=
  ((l.dropWhile isJsWhitespace).reverse.dropWhile isJsWhitespace).reverse

/-- Embeds `String.prototype.trim`. -/
def jsTrim (s : String) : String := (jsTrimL s.data).asString

/-- Replace every maximal run of characters satisfying `p` by the single
character `r`; this is `str.replace(/[class]+/g, r)` for a character class.
The flag records whether the previous character was part of a run. -/
def collapseRunsAux (p : Char → Bool) (r : Char) : Bool → List Char → List Char
  | _, [] => []
  | inRun, c :: cs =>
    if p c then
      if inRun then collapseRunsAux p r true cs
      else r :: collapseRunsAux p r true cs
    else c :: collapseRunsAux p r false cs

/-- Embeds `str.replace(/[class]+/g, r)` for a character class `p`. -/
def collapseRuns (p : Char → Bool) (r : Char) (l : List Char) : List Char :=
  collapseRunsAux p r false l

/-- Embeds `str.split(sep)` for a single-character separator (JavaScript semantics:
the result is never empty and keeps empty fields). -/
def splitOnCharAux (sep : Char) : List Char → List Char → List (List Char)
  | [], acc => [acc.reverse]
  | c :: cs, acc =>
    if c = sep then acc.reverse :: splitOnCharAux sep cs []
    else splitOnCharAux sep cs (c :: acc)

/-- Embeds `str.split(sep)` for a single-character separator. -/
def splitOnChar (sep : Char) (l : List Char) : List (List Char) :=
  splitOnCharAux sep l []

/-- Embeds `haystack.includes(needle)` on strings. -/
def strIncludes (s sub : String) : Bool :=
  (List.range (s.data.length + 1)).any
    (fun i => (s.data.drop i).take sub.data.length = sub.data)

/-- Embeds `name.startsWith(pre)` on strings. -/
def strStarts (s pre : String) : Bool :=
  s.data.take pre.data.length = pre.data

/-- Digits `0`-`9`. -/
def isDigitChar (c : Char) : Bool := '0' ≤ c && c ≤ '9'

/-- The regex class `[a-zA-Z0-9]`. -/
def isAsciiAlnum (c : Char) : Bool :=
  ('a' ≤ c && c ≤ 'z') || ('A' ≤ c && c ≤ 'Z') || isDigitChar c

/-- Value of one hexadecimal digit. -/
def hexVal (c : Char) : Option Nat :=
  let n := c.toNat
  if 48 ≤ n && n ≤ 57 then some (n - 48)
  else if 97 ≤ n && n ≤ 102 then some (n - 87)
  else if 65 ≤ n && n ≤ 70 then some (n - 55)
  else none

/-- Read one `%XX` escape: the byte it denotes and the remaining input. -/
def readPctByte : List Char → Option (Nat × List Char)
  | '%' :: h1 :: h2 :: rest => do
    let v1 ← hexVal h1
    let v2 ← hexVal h2
    pure (v1 * 16 + v2, rest)
  | _ => none

/-- Number of continuation bytes demanded by a UTF-8 lead byte, with the
value bits of the lead byte. -/
def utf8Lead (b : Nat) : Option (Nat × Nat) :=
  if b < 0x80 then some (0, b)
  else if 0xC0 ≤ b && b ≤ 0xDF then some (1, b - 0xC0)
  else if 0xE0 ≤ b && b ≤ 0xEF then some (2, b - 0xE0)
  else if 0xF0 ≤ b && b ≤ 0xF7 then some (3, b - 0xF0)
  else none

/-- Read `n` continuation bytes (each written as a `%XX` escape, each in
`0x80`-`0xBF`), accumulating the scalar value. -/
def readContBytes : Nat → Nat → List Char → Option (Nat × List Char)
  | 0, acc, l => some (acc, l)
  | n + 1, acc, l => do
    let (b, rest) ← readPctByte l
    if 0x80 ≤ b && b ≤ 0xBF then readContBytes n (acc * 64 + (b - 0x80)) rest
    else none

/-- A decoded scalar value is legal for a sequence of `1 + cont` bytes when
it is not overlong, not a surrogate, and in Unicode range. -/
def utf8ValueOk (cont v : Nat) : Bool :=
  match cont with
  | 0 => true
  | 1 => 0x80 ≤ v
  | 2 => 0x800 ≤ v && !(0xD800 ≤ v && v ≤ 0xDFFF)
  | _ => 0x10000 ≤ v && v ≤ 0x10FFFF

/-- Embeds `decodeURIComponent`: percent escapes are decoded as UTF-8 byte
sequences, other characters pass through; malformed input is a thrown
`URIError`, modelled as `none`.  The fuel is an upper bound on the input
length; every step consumes at least one character. -/
def decodeUriAux : Nat → List Char → Option (List Char)
  | _, [] => some []
  | 0, _ :: _ => none
  | fuel + 1, l@('%' :: _) => do
    let (b1, rest1) ← readPctByte l
    let (cont, v0) ← utf8Lead b1
    let (v, rest2) ← readContBytes cont v0 rest1
    if utf8ValueOk cont v then do
      let tail ← decodeUriAux fuel rest2
      pure (Char.ofNat v :: tail)
    else none
  | fuel + 1, c :: cs => do
    let tail ← decodeUriAux fuel cs
    pure (c :: tail)

/-- Embeds `decodeURIComponent(s)`; `none` models a thrown `URIError`. -/
def decodeURIComponent (s : String) : Option String :=
  (decodeUriAux s.data.length s.data).map List.asString

/-- Embeds `parseInt(s, 10)`; `none` models `NaN`. -/
def jsParseInt10 (s : String) : Option Int :=
  let l := s.data.dropWhile isJsWhitespace
  let signAndDigits : Int × List Char :=
    match l with
    | '-' :: r => (-1, r)
    | '+' :: r => (1, r)
    | _ => (1, l)
  let ds := signAndDigits.2.takeWhile isDigitChar
  if ds = [] then none
  else some (signAndDigits.1 *
    (ds.foldl (fun a c => 10 * a + (c.toNat - 48)) 0 : Nat))

/-- Truthiness of a nullable JavaScript string (`null` and `""` are falsy). -/
def jsTruthyS : Option String → Bool
  | none => false
  | some s => s ≠ ""

/-- Embeds `a || b` on nullable JavaScript strings. -/
def jsOrStr (a b : Option String) : Option String :=
  if jsTruthyS a then a else b

/-! ## Data model

JavaScript candidate objects are records whose optional keys are modelled
with `Option` (a `none` field is an absent key, so an object spread leaves
the target's value in place). -/

/-- One discovered downloadable item (`ResourceCandidate`). -/
structure Candidate where
  url : String
  filename : String
  extension : String
  isInferredDownload : Option Bool := none
  enriched : Option Bool := none
  /-- Embeds `metadata.size = parseInt(...)`; the inner `Option` is the parse
  result, `none` standing for `NaN`. -/
  size : Option (Option Int) := none
  finalUrl : Option String := none
  selected : Option Bool := none
deriving DecidableEq, Repr

/-- The metadata object built by `fetchFileMetadata`; its only possible keys
are `filename`, `extension`, `size` and `finalUrl`. -/
structure Metadata where
  filename : Option String := none
  extension : Option String := none
  size : Option (Option Int) := none
  finalUrl : Option String := none
deriving DecidableEq, Repr

/-- One entry of the `headCache` map. -/
structure CacheEntry where
  timestamp : Int
  data : Metadata
deriving DecidableEq, Repr

/-- The observable part of a HEAD probe response: status, the three parsed
headers, and the effective (post-redirect) URL. -/
structure ProbeResponse where
  ok : Bool
  contentDisposition : Option String := none
  contentType : Option String := none
  contentLength : Option String := none
  responseUrl : String
deriving DecidableEq, Repr

/-! ## Download Scheduler (service-worker.js, consolidated draft) -/

/-- The regex class `[<>:"/\\|?*\x00-\x1f]` of `sanitizeFilename`. -/
def isSwInvalidChar (c : Char) : Bool :=
  ['<', '>', ':', '"', '/', '\\', '|', '?', '*'].contains c || c.toNat ≤ 0x1f

/-- Drop a leading and a trailing run of dots: `replace(/^\.+|\.+$/g, '')`. -/
def stripEdgeDots (l : List Char) : List Char :=
  ((l.dropWhile (· = '.')).reverse.dropWhile (· = '.')).reverse

/-- Embeds `sanitizeFilename` of the service worker (lines 410-428): replace
invalid and control characters by `_`, collapse whitespace/underscore runs
to one space, trim, strip edge dots, cap at 180 characters, and fall back
to `'download'` when empty. -/
def sanitizeFilename (filename : String) : String :=
  if filename = "" then "download"
  else
    let s1 := filename.data.map (fun c => if isSwInvalidChar c then '_' else c)
    let s2 := collapseRuns (fun c => isJsWhitespace c || c == '_') ' ' s1
    let s3 := stripEdgeDots (jsTrimL s2)
    let s4 := s3.take 180
    if s4 = [] then "download" else s4.asString

/-- Embeds `addFilenameCounter` (lines 376-387): split at `filename.lastIndexOf('.')`,
the extension part keeping its dot; `none` when there is no dot. -/
def lastDotSplit (l : List Char) : Option (List Char × List Char) :=
  let afterLen := (l.reverse.takeWhile (· ≠ '.')).length
  if afterLen = l.length then none
  else
    let i := l.length - afterLen - 1
    some (l.take i, l.drop i)

/-- Embeds `addFilenameCounter(filename, count)`: insert `' (count)'` immediately
before the last dot, or append it when the name has no dot. -/
def addFilenameCounter (filename : String) (count : Nat) : String :=
  match lastDotSplit filename.data with
  | none => filename ++ " (" ++ toString count ++ ")"
  | some (name, ext) =>
      name.asString ++ " (" ++ toString count ++ ")" ++ ext.asString

/-- The filename-finalization loop of `downloadFiles` (lines 338-361); the
map argument is the `filenameCount` `Map` (`get` defaulting to `0`).  The
returned list holds, in input order, the `finalFilename` each candidate is
issued with. -/
def downloadFilesPlanAux : (String → Nat) → List Candidate → List String
  | _, [] => []
  | m, f :: fs =>
    let sanitized := sanitizeFilename f.filename
    let count := m sanitized
    let m' := fun k => if k = sanitized then count + 1 else m k
    (if count > 0 then addFilenameCounter sanitized count else sanitized) ::
      downloadFilesPlanAux m' fs

/-- Filenames issued by `downloadFiles`, in input (= download) order. -/
def downloadFilesPlan (files : List Candidate) : List String :=
  downloadFilesPlanAux (fun _ => 0) files

/-! ## Content script: extension recognition and filename resolution -/

/-- Embeds `SUPPORTED_EXTENSIONS` (content-script.js lines 4-17). -/
def SUPPORTED_EXTENSIONS : List String :=
  ["jpg", "jpeg", "png", "gif", "webp", "svg", "bmp", "ico",
   "pdf", "doc", "docx", "xls", "xlsx", "ppt", "pptx", "txt", "rtf", "odt", "ods",
   "mp4", "webm", "avi", "mov", "mkv", "flv", "wmv",
   "mp3", "wav", "ogg", "flac", "aac", "m4a",
   "zip", "rar", "7z", "tar", "gz", "bz2",
   "ttf", "otf", "woff", "woff2", "eot"]

/-- Embeds `isSupported(extension)` (lines 630-632). -/
def isSupported (extension : String) : Bool :=
  SUPPORTED_EXTENSIONS.contains (jsToLower extension)

/-- The match `filename.match(/\.([a-zA-Z0-9]+)$/)`: the maximal trailing
alphanumeric run when it is non-empty and preceded by a dot. -/
def jsExtMatch (filename : String) : Option String :=
  let rev := filename.data.reverse
  let run := rev.takeWhile isAsciiAlnum
  if run = [] then none
  else
    match rev.drop run.length with
    | '.' :: _ => some run.reverse.asString
    | _ => none

/-- Embeds `extractExtensionFromFilename` (lines 451-458): the lowercased trailing
extension when it is in the supported set, else the `'download'` sentinel. -/
def extractExtensionFromFilename (filename : String) : String :=
  match jsExtMatch filename with
  | some ext =>
    if SUPPORTED_EXTENSIONS.contains (jsToLower ext) then jsToLower ext
    else "download"
  | none => "download"

/-- The `uselessNames` list of `isUsefulFilename` (lines 432-436). -/
def USELESS_NAMES : List String :=
  ["download", "dl", "get", "save", "export", "file", "click here",
   "click to download", "download file", "download now", "get file",
   "save file", "here", "link", "button"]

/-- Embeds `isUsefulFilename(str)` (lines 427-439). -/
def isUsefulFilename (str : String) : Bool :=
  if str = "" || str.length < 2 then false
  else
    let normalized := jsTrim (jsToLower str)
    !(USELESS_NAMES.contains normalized) && normalized.length ≤ 100

/-- The regex class `[<>:"/\\|?*]` of `cleanFilename`. -/
def isCsInvalidChar (c : Char) : Bool :=
  ['<', '>', ':', '"', '/', '\\', '|', '?', '*'].contains c

/-- Embeds `cleanFilename(str)` (lines 441-449): trim, newlines to spaces,
collapse whitespace, invalid characters to `-`, cap at 80 characters. -/
def cleanFilename (str : String) : String :=
  let s1 := jsTrimL str.data
  let s2 := collapseRuns (fun c => c == '\r' || c == '\n') ' ' s1
  let s3 := collapseRuns isJsWhitespace ' ' s2
  let s4 := s3.map (fun c => if isCsInvalidChar c then '-' else c)
  (s4.take 80).asString

/-- The pure-size test `title.match(/^\d+\s*[KMG]?B?$/i)`. -/
def isSizePattern (s : String) : Bool :=
  let l := s.data
  let ds := l.takeWhile isDigitChar
  let rest := (l.drop ds.length).dropWhile isJsWhitespace
  ds ≠ [] &&
    (match rest with
     | [] => true
     | [c] => ['K', 'M', 'G', 'k', 'm', 'g', 'B', 'b'].contains c
     | [c1, c2] =>
         ['K', 'M', 'G', 'k', 'm', 'g'].contains c1 && (c2 == 'B' || c2 == 'b')
     | _ => false)

/-! ### DOM inputs

The content script reads the page through the DOM collaborator; the parts
of it the resolver consults are modelled as plain records.  A URL parse
(`new URL(...)`) is an input: `none` models a thrown `TypeError`. -/

/-- An element as the resolver sees it: its attribute list (in document
order), its `textContent`, and its `className`. -/
structure Element where
  attrs : List (String × String)
  textContent : String
  className : String
deriving DecidableEq, Repr

/-- Embeds `element.getAttribute(name)` (`none` is JavaScript `null`). -/
def Element.getAttr (el : Element) (name : String) : Option String :=
  (el.attrs.find? (fun a => a.1 = name)).map (·.2)

/-- Embeds `element.hasAttribute(name)`. -/
def Element.hasAttr (el : Element) (name : String) : Bool :=
  el.attrs.any (fun a => a.1 = name)

/-- What `extractFilenameFromContext` reads from one ancestor element: the
`textContent` of its first heading/bold descendant and of its first
`[class*="title"], [class*="name"], [class*="font-name"]` descendant. -/
structure ParentCtx where
  headingText : Option String := none
  titleElText : Option String := none
deriving DecidableEq, Repr

/-- What `extractFilenameFromPage` reads from the document: the
`textContent` of the first `h1` (if any) and `document.title`. -/
structure PageCtx where
  h1Text : Option String := none
  docTitle : String := ""
deriving DecidableEq, Repr

/-- The result of a `new URL(...)` parse: `pathname`, the search-parameter
list (in order), and the serialized absolute `href`. -/
structure UrlParts where
  pathname : String
  searchParams : List (String × String) := []
  href : String
deriving DecidableEq, Repr

/-- Embeds `searchParams.get(k)`: the first value for `k`, or `null`. -/
def spGet (ps : List (String × String)) (k : String) : Option String :=
  (ps.find? (fun p => p.1 = k)).map (·.2)

/-- The per-parameter body of the `extractFilenameFromQuery` loop
(lines 370-397). -/
def tryQueryParam (sp : List (String × String)) (param : String) : Option String :=
  match spGet sp param with
  | some value =>
    if value ≠ "" && 2 ≤ value.length && value.length ≤ 100 then
      let cleaned :=
        (jsTrimL (collapseRuns isJsWhitespace ' '
          (collapseRuns (fun c => c == '_' || c == '-') ' ' value.data))).asString
      if isUsefulFilename cleaned then some (cleanFilename cleaned) else none
    else none
  | none => none

/-- The `filenameParams` list (line 376). -/
def FILENAME_PARAMS : List String :=
  ["f", "file", "name", "filename", "fn", "title", "n", "font"]

/-- Embeds `extractFilenameFromQuery(href)` (lines 370-397); the `Option UrlParts`
input is the guarded `new URL(href, location)` parse. -/
def extractFilenameFromQuery (u : Option UrlParts) : Option String :=
  match u with
  | none => none
  | some url => FILENAME_PARAMS.findSome? (tryQueryParam url.searchParams)

/-- The delimiter class of `pageTitle.split(/\s*[-|–—•·]\s*/)`. -/
def isTitleDelim (c : Char) : Bool :=
  c == '-' || c == '|' || c.toNat == 0x2013 || c.toNat == 0x2014 ||
  c.toNat == 0x2022 || c.toNat == 0xB7

/-- Embeds `extractFilenameFromPage()` (lines 399-425).  Taking `split(...)[0]` and
then trimming equals taking the characters before the first delimiter and
trimming, which is how the prefix is computed here. -/
def extractFilenameFromPage (page : PageCtx) : Option String :=
  let fromTitle : Option String :=
    if page.docTitle ≠ "" then
      let cleaned := jsTrim ((page.docTitle.data.takeWhile (fun c => !isTitleDelim c)).asString)
      if isUsefulFilename cleaned && cleaned.length ≤ 60 then
        some (cleanFilename cleaned)
      else none
    else none
  match page.h1Text with
  | some t =>
    let h1Text := jsTrim t
    if isUsefulFilename h1Text && h1Text.length ≤ 60 then some (cleanFilename h1Text)
    else fromTitle
  | none => fromTitle

/-- The body of the `extractFilenameFromContext` loop for one ancestor
(lines 460-490). -/
def tryParentCtx (anchorText : String) (p : ParentCtx) : Option String :=
  let fromHeading : Option String :=
    match p.headingText with
    | some h =>
      let headingText := jsTrim h
      if isUsefulFilename headingText && headingText ≠ anchorText then
        some (cleanFilename headingText)
      else none
    | none => none
  let fromTitleEl : Option String :=
    match p.titleElText with
    | some t =>
      let titleText := jsTrim t
      if isUsefulFilename titleText then some (cleanFilename titleText) else none
    | none => none
  fromHeading <|> fromTitleEl

/-- Embeds `extractFilenameFromContext(anchor)`: walk up to three ancestors. -/
def extractFilenameFromContext (anchor : Element) (parents : List ParentCtx) :
    Option String :=
  (parents.take 3).findSome? (tryParentCtx (jsTrim anchor.textContent))

/-- Embeds `extractFilenameFromUrl(url)` of the content script (lines 492-505):
last non-empty path segment, decoded; any throw is caught to `null`. -/
def extractFilenameFromUrlCS (u : Option UrlParts) : Option String :=
  match u with
  | none => none
  | some url =>
    let pathParts := (splitOnChar '/' url.pathname.data).filter (· ≠ [])
    match pathParts.getLast? with
    | some lastPart =>
      if lastPart ≠ [] && lastPart.length > 0 && lastPart.length < 100 then
        decodeURIComponent lastPart.asString
      else none
    | none => none

/-- Embeds `extractBestFilename(anchor, href)` (lines 314-368): the prioritized
rule chain, falling back to the literal `'download'`.  `parents`, `page`
and `url` are the DOM and URL-parser inputs of the helper rules. -/
def extractBestFilename (anchor : Element) (parents : List ParentCtx)
    (page : PageCtx) (url : Option UrlParts) : String :=
  let step1 : Option String :=
    match anchor.getAttr "title" with
    | some title =>
      if title ≠ "" && isUsefulFilename title && !isSizePattern title then
        some (cleanFilename title)
      else none
    | none => none
  let step2 : Option String :=
    anchor.attrs.findSome? (fun attr =>
      if strIncludes attr.1 "filename" || strIncludes attr.1 "name" then
        if attr.2 ≠ "" && isUsefulFilename attr.2 then some (cleanFilename attr.2)
        else none
      else none)
  let step3 : Option String :=
    let anchorText := jsTrim anchor.textContent
    if isUsefulFilename anchorText then some (cleanFilename anchorText) else none
  let step4 : Option String :=
    match anchor.getAttr "aria-label" with
    | some ariaLabel =>
      if ariaLabel ≠ "" && isUsefulFilename ariaLabel then
        some (cleanFilename ariaLabel)
      else none
    | none => none
  let step5 : Option String := extractFilenameFromQuery url
  let step6 : Option String := extractFilenameFromContext anchor parents
  let step7 : Option String := extractFilenameFromPage page
  let step8 : Option String :=
    match extractFilenameFromUrlCS url with
    | some urlFilename =>
      if urlFilename ≠ "" && isUsefulFilename urlFilename then some urlFilename
      else none
    | none => none
  ((((((((step1.orElse (fun _ => step2)).orElse (fun _ => step3)).orElse
    (fun _ => step4)).orElse (fun _ => step5)).orElse (fun _ => step6)).orElse
    (fun _ => step7)).orElse (fun _ => step8))).getD "download"

/-- Embeds `downloadPathPatterns` (line 284). -/
def DOWNLOAD_PATH_PATTERNS : List String :=
  ["/download", "/get/", "/fetch/", "/file/", "/files/", "/dl/", "/d/"]

/-- Embeds `downloadTextPatterns` (line 289). -/
def DOWNLOAD_TEXT_PATTERNS : List String :=
  ["download", "get file", "save", "export"]

/-- Embeds `detectDownloadLink(anchor, href)` (lines 264-312); `url` is the
`new URL(href, location)` parse (`none` throws, caught to `null`). -/
def detectDownloadLink (anchor : Element) (parents : List ParentCtx)
    (page : PageCtx) (href : String) (url : Option UrlParts) : Option Candidate :=
  match url with
  | none => none
  | some urlObj =>
    let pathname := jsToLower urlObj.pathname
    let anchorText := jsTrim anchor.textContent
    if anchor.hasAttr "download" then
      let downloadAttr := anchor.getAttr "download"
      let filename :=
        match downloadAttr with
        | some v =>
          if v ≠ "" then v else extractBestFilename anchor parents page url
        | none => extractBestFilename anchor parents page url
      some { url := href, filename := filename,
             extension := extractExtensionFromFilename filename,
             isInferredDownload := some true }
    else
      let hasDownloadPath :=
        DOWNLOAD_PATH_PATTERNS.any (fun pat => strIncludes pathname pat)
      let anchorTextLower := jsToLower anchorText
      let hasDownloadText :=
        DOWNLOAD_TEXT_PATTERNS.any (fun pat => strIncludes anchorTextLower pat)
      let hasDownloadClass := strIncludes (jsToLower anchor.className) "download"
      let hasDownloadData :=
        anchor.attrs.any (fun attr =>
          strStarts attr.1 "data-" && strIncludes (jsToLower attr.2) "download")
      if hasDownloadPath || hasDownloadText || hasDownloadClass || hasDownloadData then
        let filename := extractBestFilename anchor parents page url
        some { url := href, filename := filename,
               extension := extractExtensionFromFilename filename,
               isInferredDownload := some true }
      else none

/-- Embeds `extractFileInfo(url)` (lines 565-606); the input is the
`new URL(url, location)` parse (`none` throws, caught to `null`). -/
def extractFileInfo (u : Option UrlParts) : Option Candidate :=
  match u with
  | none => none
  | some urlObj =>
    let pathParts := splitOnChar '/' urlObj.pathname.data
    let rawFilename := (pathParts.getLast?).getD []
    match decodeURIComponent rawFilename.asString with
    | none => none
    | some decoded =>
      let filenameWithoutQuery := ((splitOnChar '?' decoded.data).headD []).asString
      match jsExtMatch filenameWithoutQuery with
      | some extMatch =>
        some { url := urlObj.href,
               filename :=
                 if filenameWithoutQuery ≠ "" then filenameWithoutQuery
                 else "file." ++ jsToLower extMatch,
               extension := jsToLower extMatch }
      | none =>
        match jsOrStr (spGet urlObj.searchParams "format")
            (spGet urlObj.searchParams "ext") with
        | some formatParam =>
          if formatParam ≠ "" && isSupported (jsToLower formatParam) then
            some { url := urlObj.href,
                   filename :=
                     if filenameWithoutQuery ≠ "" then filenameWithoutQuery
                     else "file",
                   extension := jsToLower formatParam }
          else none
        | none => none

/-! ## Metadata Enrichment Service (service-worker.js) -/

/-- Embeds `MIME_TO_EXTENSION` of the service worker (lines 70-111). -/
def MIME_TO_EXTENSION : List (String × String) :=
  [("image/jpeg", "jpg"), ("image/png", "png"), ("image/gif", "gif"),
   ("image/webp", "webp"), ("image/svg+xml", "svg"), ("image/bmp", "bmp"),
   ("image/x-icon", "ico"), ("application/pdf", "pdf"),
   ("application/msword", "doc"),
   ("application/vnd.openxmlformats-officedocument.wordprocessingml.document", "docx"),
   ("application/vnd.ms-excel", "xls"),
   ("application/vnd.openxmlformats-officedocument.spreadsheetml.sheet", "xlsx"),
   ("application/vnd.ms-powerpoint", "ppt"),
   ("application/vnd.openxmlformats-officedocument.presentationml.presentation", "pptx"),
   ("text/plain", "txt"), ("application/rtf", "rtf"), ("video/mp4", "mp4"),
   ("video/webm", "webm"), ("video/x-msvideo", "avi"), ("video/quicktime", "mov"),
   ("video/x-matroska", "mkv"), ("video/x-flv", "flv"), ("video/x-ms-wmv", "wmv"),
   ("audio/mpeg", "mp3"), ("audio/wav", "wav"), ("audio/ogg", "ogg"),
   ("audio/flac", "flac"), ("audio/aac", "aac"), ("audio/mp4", "m4a"),
   ("application/zip", "zip"), ("application/x-rar-compressed", "rar"),
   ("application/x-7z-compressed", "7z"), ("application/x-tar", "tar"),
   ("application/gzip", "gz"), ("application/x-bzip2", "bz2"),
   ("font/ttf", "ttf"), ("font/otf", "otf"), ("font/woff", "woff"),
   ("font/woff2", "woff2"), ("application/vnd.ms-fontobject", "eot")]

/-- Property-table lookup `MIME_TO_EXTENSION[mimeType]`. -/
def mimeLookup (mimeType : String) : Option String :=
  (MIME_TO_EXTENSION.find? (fun p => p.1 = mimeType)).map (·.2)

/-- Try a pattern matcher at every start position, left to right: the
leftmost-match rule of `String.prototype.match`. -/
def scanFirst {α : Type} (f : List Char → Option α) : List Char → Option α
  | [] => f []
  | c :: cs => (f (c :: cs)).orElse (fun _ => scanFirst f cs)

/-- Consume a keyword case-insensitively (the `/i` flag; `word` is given in
lower case). -/
def litCI (word l : List Char) : Option (List Char) :=
  if (l.take word.length).map jsToLowerChar = word then some (l.drop word.length)
  else none

/-- A single quote character (`0x27`). -/
def sqChar : Char := Char.ofNat 39

/-- The JavaScript line terminators excluded by `.` in regular expressions. -/
def isJsLineTerm (c : Char) : Bool :=
  c == '\n' || c == '\r' || c.toNat == 0x2028 || c.toNat == 0x2029

/-- Match `/filename\*\s*=\s*(?:UTF-8|utf-8)?''(.+?)(?:;|$)/i` at one
position, returning the raw capture group. -/
def cdExtendedAt (l : List Char) : Option (List Char) := do
  let r1 ← litCI "filename*".data l
  let r2 := r1.dropWhile isJsWhitespace
  let r3 ← match r2 with
           | '=' :: rest => some rest
           | _ => none
  let r4 := r3.dropWhile isJsWhitespace
  let r5 ←
    (do
      let r ← litCI "utf-8".data r4
      if r.take 2 = [sqChar, sqChar] then some (r.drop 2) else none).orElse
    (fun _ => if r4.take 2 = [sqChar, sqChar] then some (r4.drop 2) else none)
  let run := r5.takeWhile (fun c => c ≠ ';' && !isJsLineTerm c)
  if run = [] then none
  else
    match r5.drop run.length with
    | [] => some run
    | ';' :: _ => some run
    | _ => none

/-- The RFC 5987 branch (lines 277-284): leftmost regex match, capture
trimmed, then `decodeURIComponent`; a decode throw falls through. -/
def cdExtendedMatch (header : String) : Option String :=
  (scanFirst cdExtendedAt header.data).bind
    (fun cap => decodeURIComponent (jsTrim cap.asString))

/-- Match `/filename\s*=\s*"([^"]+)"/i` at one position. -/
def cdQuotedAt (l : List Char) : Option (List Char) := do
  let r1 ← litCI "filename".data l
  let r2 := r1.dropWhile isJsWhitespace
  let r3 ← match r2 with
           | '=' :: rest => some rest
           | _ => none
  let r4 := r3.dropWhile isJsWhitespace
  let r5 ← match r4 with
           | '"' :: rest => some rest
           | _ => none
  let run := r5.takeWhile (· ≠ '"')
  if run = [] then none
  else
    match r5.drop run.length with
    | '"' :: _ => some run
    | _ => none

/-- The quoted branch (lines 287-290). -/
def cdQuotedMatch (header : String) : Option String :=
  (scanFirst cdQuotedAt header.data).map (fun cap => jsTrim cap.asString)

/-- Match `/filename\s*=\s*([^;\s]+)/i` at one position. -/
def cdUnquotedAt (l : List Char) : Option (List Char) := do
  let r1 ← litCI "filename".data l
  let r2 := r1.dropWhile isJsWhitespace
  let r3 ← match r2 with
           | '=' :: rest => some rest
           | _ => none
  let r4 := r3.dropWhile isJsWhitespace
  let run := r4.takeWhile (fun c => c ≠ ';' && !isJsWhitespace c)
  if run = [] then none else some run

/-- The unquoted branch (lines 293-296). -/
def cdUnquotedMatch (header : String) : Option String :=
  (scanFirst cdUnquotedAt header.data).map (fun cap => jsTrim cap.asString)

/-- Match `/name\s*=\s*"?([^";\s]+)"?/i` at one position. -/
def cdInlineAt (l : List Char) : Option (List Char) := do
  let r1 ← litCI "name".data l
  let r2 := r1.dropWhile isJsWhitespace
  let r3 ← match r2 with
           | '=' :: rest => some rest
           | _ => none
  let r4 := r3.dropWhile isJsWhitespace
  let r5 := match r4 with
            | '"' :: rest => rest
            | _ => r4
  let run := r5.takeWhile (fun c => c ≠ '"' && c ≠ ';' && !isJsWhitespace c)
  if run = [] then none else some run

/-- The generic inline-name branch (lines 299-302). -/
def cdInlineMatch (header : String) : Option String :=
  (scanFirst cdInlineAt header.data).map (fun cap => jsTrim cap.asString)

/-- Embeds `parseContentDisposition(header)` (lines 272-305): the four forms in
priority order, `null` when none applies. -/
def parseContentDisposition (header : String) : Option String :=
  if header = "" then none
  else
    ((cdExtendedMatch header).orElse (fun _ => cdQuotedMatch header)).orElse
      (fun _ => (cdUnquotedMatch header).orElse (fun _ => cdInlineMatch header))

/-- Models the platform URL parser on an absolute URL string: the
characters after the authority and before the query/fragment, `/` when the
authority is not followed by a path; `none` models `new URL` throwing. -/
def urlPathname (url : String) : Option String :=
  let l := url.data
  match (List.range l.length).find?
      (fun i => (l.drop i).take 3 = [':', '/', '/']) with
  | none => none
  | some i =>
    let afterScheme := l.drop (i + 3)
    let auth := afterScheme.takeWhile (fun c => c ≠ '/' && c ≠ '?' && c ≠ '#')
    let path := (afterScheme.drop auth.length).takeWhile (fun c => c ≠ '?' && c ≠ '#')
    if path = [] then some "/" else some path.asString

/-- Embeds `extractFilenameFromUrl(url)` of the service worker (lines 307-325). -/
def extractFilenameFromUrlSW (url : String) : Option String :=
  match urlPathname url with
  | none => none
  | some pathname =>
    let pathParts := (splitOnChar '/' pathname.data).filter (· ≠ [])
    match pathParts.getLast? with
    | some lastPart =>
      if lastPart ≠ [] then
        match decodeURIComponent lastPart.asString with
        | some decoded => some ((splitOnChar '?' decoded.data).headD []).asString
        | none => none
      else none
    | none => none

/-- Embeds `fetchFileMetadata(url)` (lines 195-270) applied to an already-arrived
probe response: builds the metadata object; `none` models a thrown error
(non-2xx status).  Network failure and timeout are modelled by the caller
passing no response at all. -/
def fetchFileMetadata (url : String) (resp : ProbeResponse) : Option Metadata :=
  if !resp.ok then none
  else
    let md0 : Metadata := {}
    let md1 :=
      match resp.contentDisposition with
      | some cd =>
        if cd ≠ "" then
          match parseContentDisposition cd with
          | some filename =>
            if filename ≠ "" then
              { md0 with filename := some filename,
                         extension := (jsExtMatch filename).map jsToLower }
            else md0
          | none => md0
        else md0
      | none => md0
    let md2 :=
      match resp.contentType with
      | some ct =>
        if ct ≠ "" && md1.extension = none then
          let mimeType := jsToLower (jsTrim ((splitOnChar ';' ct.data).headD []).asString)
          match mimeLookup mimeType with
          | some extFromMime =>
            { md1 with extension := some extFromMime,
                       filename := md1.filename.orElse
                         (fun _ => some ("file." ++ extFromMime)) }
          | none => md1
        else md1
      | none => md1
    let md3 :=
      match resp.contentLength with
      | some cl =>
        if cl ≠ "" then { md2 with size := some (jsParseInt10 cl) } else md2
      | none => md2
    let md4 : Metadata :=
      if resp.responseUrl ≠ url then
        let mdF := { md3 with finalUrl := some resp.responseUrl }
        if mdF.filename = none then
          match extractFilenameFromUrlSW resp.responseUrl with
          | some finalFilename =>
            if finalFilename ≠ "" && finalFilename ≠ "download" then
              { mdF with filename := some finalFilename,
                         extension :=
                           match jsExtMatch finalFilename with
                           | some e => some (jsToLower e)
                           | none => mdF.extension }
            else mdF
          | none => mdF
        else mdF
      else md3
    some md4

/-- The UUID test `filename.match(/^[a-f0-9-]{32,}$/i)`. -/
def isUuidLike (s : String) : Bool :=
  s.data.length ≥ 32 &&
    s.data.all (fun c =>
      ('a' ≤ c && c ≤ 'f') || ('A' ≤ c && c ≤ 'F') || isDigitChar c || c == '-')

/-- The `hasGoodFilename` guard of `enrichFileMetadata` (lines 150-156). -/
def hasGoodFilename (file : Candidate) : Bool :=
  file.filename ≠ "" && file.extension ≠ "" && file.extension ≠ "download" &&
  !(file.isInferredDownload.getD false) && file.filename ≠ "file" &&
  !isUuidLike file.filename

/-- The object spread `{...file, ...metadata}`: a key present in the
metadata overwrites the candidate's value, an absent key leaves it. -/
def mergeMetadata (file : Candidate) (m : Metadata) : Candidate :=
  { file with
    filename := m.filename.getD file.filename,
    extension := m.extension.getD file.extension,
    size := m.size.orElse (fun _ => file.size),
    finalUrl := m.finalUrl.orElse (fun _ => file.finalUrl) }

/-- The head-cache time-to-live `HEAD_CACHE_TTL` (line 115). -/
def HEAD_CACHE_TTL : Int := 60000

/-- Embeds `enrichFileMetadata(file)` (lines 149-192).  The `headCache` contents
and the clock are explicit inputs; `probe` is the HEAD response for
`file.url`, `none` standing for a network error or timeout.  The function
also writes the cache on a successful fetch; the claims concern the
returned candidate, which never depends on that write (all cache reads of
a batch happen synchronously before any response settles). -/
def enrichFileMetadata (file : Candidate) (cache : String → Option CacheEntry)
    (now : Int) (probe : Option ProbeResponse) : Candidate :=
  if hasGoodFilename file then file
  else
    let fetched : Option Metadata :=
      probe.bind (fetchFileMetadata file.url)
    let viaFetch : Candidate :=
      match fetched with
      | some metadata => { mergeMetadata file metadata with enriched := some true }
      | none => file
    match cache file.url with
    | some cached =>
      if now - cached.timestamp < HEAD_CACHE_TTL then mergeMetadata file cached.data
      else viaFetch
    | none => viaFetch

/-- The `files.map(file => enrichFileMetadata(file))` of
`enrichFilesWithMetadata`, with each element's own probe outcome. -/
def enrichFilesAux (cache : String → Option CacheEntry) (now : Int)
    (probe : Nat → Option ProbeResponse) : Nat → List Candidate → List Candidate
  | _, [] => []
  | i, f :: fs =>
    enrichFileMetadata f cache now (probe i) ::
      enrichFilesAux cache now probe (i + 1) fs

/-- Embeds `enrichFilesWithMetadata(files)` (lines 133-146): enrich every file,
`Promise.allSettled` keeping order and falling back to the original file
(the per-file function already catches its own errors). -/
def enrichFilesWithMetadata (files : List Candidate)
    (cache : String → Option CacheEntry) (now : Int)
    (probe : Nat → Option ProbeResponse) : List Candidate :=
  enrichFilesAux cache now probe 0 files

/-! ## Popup merges (popup.js) -/

/-- Embeds `new Map(list.map(f => [f.url, f])).get(url)`: the last list entry with
the given URL (later insertions overwrite earlier ones). -/
def mapLastByUrl (fs : List Candidate) (url : String) : Option Candidate :=
  fs.reverse.find? (fun f => f.url = url)

/-- The object spread `{...file, ...enriched}` of two candidate records:
keys present in `enriched` win, absent optional keys keep `file`'s value. -/
def spreadCandidate (file e : Candidate) : Candidate :=
  { url := e.url, filename := e.filename, extension := e.extension,
    isInferredDownload := e.isInferredDownload.orElse (fun _ => file.isInferredDownload),
    enriched := e.enriched.orElse (fun _ => file.enriched),
    size := e.size.orElse (fun _ => file.size),
    finalUrl := e.finalUrl.orElse (fun _ => file.finalUrl),
    selected := e.selected.orElse (fun _ => file.selected) }

/-- The merge step of the popup's `enrichFiles` (lines 152-166):
`{...file, ...enriched, selected: file.selected}` for files present in the
response map, others untouched. -/
def enrichFilesPopupMerge (files respFiles : List Candidate) : List Candidate :=
  files.map (fun file =>
    match mapLastByUrl respFiles file.url with
    | some enriched => { spreadCandidate file enriched with selected := file.selected }
    | none => file)

/-- Embeds `handleFilesChanged(newFiles)` (popup.js lines 55-61): re-key the old
selection state by URL (`selectionMap.get(url) || false`) onto the newly
scanned candidates. -/
def handleFilesChanged (prior newFiles : List Candidate) : List Candidate :=
  newFiles.map (fun file =>
    { file with
      selected := some (match mapLastByUrl prior file.url with
        | some f => f.selected.getD false
        | none => false) })

/-! ## Predicates used by the specification statements -/

/-- A lowercase-alphanumeric character. -/
def isLowerAlnum (c : Char) : Bool :=
  ('a' ≤ c && c ≤ 'z') || isDigitChar c

/-- A non-empty string of lowercase-alphanumeric characters. -/
def isLowerAlnumStr (s : String) : Bool :=
  s ≠ "" && s.data.all isLowerAlnum

/-! ## Helper lemmas -/

theorem char_le_iff {a c : Char} : a ≤ c ↔ a.toNat ≤ c.toNat := Char.le_def

theorem charOfNat_toNat {n : Nat} (h : n < 0xd800) : (Char.ofNat n).toNat = n := by
  unfold Char.ofNat
  rw [dif_pos (Or.inl h)]
  simp [Char.ofNatAux, Char.toNat, UInt32.ofNat', UInt32.toNat]

theorem char_toNat_a : ('a' : Char).toNat = 97 := rfl

theorem char_toNat_z : ('z' : Char).toNat = 122 := rfl

theorem char_toNat_A : ('A' : Char).toNat = 65 := rfl

theorem char_toNat_Z : ('Z' : Char).toNat = 90 := rfl

theorem char_toNat_0 : ('0' : Char).toNat = 48 := rfl

theorem char_toNat_9 : ('9' : Char).toNat = 57 := rfl

/-- ASCII-lowercasing an alphanumeric character yields a lowercase
alphanumeric character. -/
theorem jsToLowerChar_lower_alnum {c : Char} (h : isAsciiAlnum c = true) :
    isLowerAlnum (jsToLowerChar c) = true := by
  have hiff : ∀ a b : Char, (a ≤ b) = (a.toNat ≤ b.toNat) := fun a b => propext char_le_iff
  unfold isAsciiAlnum isDigitChar at h
  simp only [Bool.or_eq_true, Bool.and_eq_true, decide_eq_true_eq, hiff,
    char_toNat_a, char_toNat_z, char_toNat_A, char_toNat_Z,
    char_toNat_0, char_toNat_9] at h
  unfold jsToLowerChar
  by_cases hg : 65 ≤ c.toNat ∧ c.toNat ≤ 90
  · have hd : ('A' ≤ c && c ≤ 'Z') = true := by
      simp only [Bool.and_eq_true, decide_eq_true_eq, hiff,
        char_toNat_A, char_toNat_Z]
      exact hg
    rw [if_pos hd]
    have ht : (Char.ofNat (c.toNat + 32)).toNat = c.toNat + 32 :=
      charOfNat_toNat (by omega)
    unfold isLowerAlnum isDigitChar
    simp only [Bool.or_eq_true, Bool.and_eq_true, decide_eq_true_eq, hiff,
      char_toNat_a, char_toNat_z, char_toNat_0, char_toNat_9, ht]
    omega
  · have hd : ('A' ≤ c && c ≤ 'Z') = false := by
      simp only [Bool.and_eq_false_iff]
      rcases Decidable.not_and_iff_or_not.mp hg with h1 | h1
      · exact Or.inl (by simp only [decide_eq_false_iff_not, hiff, char_toNat_A]; exact h1)
      · exact Or.inr (by simp only [decide_eq_false_iff_not, hiff, char_toNat_Z]; exact h1)
    rw [if_neg (by simp [hd])]
    unfold isLowerAlnum isDigitChar
    simp only [Bool.or_eq_true, Bool.and_eq_true, decide_eq_true_eq, hiff,
      char_toNat_a, char_toNat_z, char_toNat_0, char_toNat_9]
    omega

theorem downloadFilesPlanAux_length (fs : List Candidate) :
    ∀ m, (downloadFilesPlanAux m fs).length = fs.length := by
  induction fs with
  | nil => intro m; rfl
  | cons f fs ih => intro m; simp [downloadFilesPlanAux, ih]

theorem downloadFilesPlanAux_getElem (fs : List Candidate) :
    ∀ (i : Nat) (m : String → Nat) (hi : i < fs.length),
      (downloadFilesPlanAux m fs)[i]? =
        some (
          let s := sanitizeFilename (fs[i].filename)
          let n := m s + (fs.take i).countP (fun f => sanitizeFilename f.filename == s)
          if n = 0 then s else addFilenameCounter s n) := by
  induction fs with
  | nil => intro i m hi; simp at hi
  | cons f fs ih =>
    intro i m hi
    match i with
    | 0 =>
      simp only [downloadFilesPlanAux, List.getElem?_cons_zero, List.getElem_cons_zero,
        List.take_zero, List.countP_nil, Nat.add_zero, Option.some.injEq]
      by_cases h0 : m (sanitizeFilename f.filename) = 0
      · simp [h0]
      · simp [h0, Nat.pos_of_ne_zero h0]
    | i + 1 =>
      have hi' : i < fs.length := by simpa using hi
      simp only [downloadFilesPlanAux, List.getElem?_cons_succ]
      rw [ih i _ hi']
      simp only [List.getElem_cons_succ, List.take_succ_cons, List.countP_cons,
        Option.some.injEq]
      generalize sanitizeFilename (fs[i].filename) = s
      generalize hsf : sanitizeFilename f.filename = sf
      generalize List.countP (fun f => sanitizeFilename f.filename == s) (List.take i fs) = cnt
      by_cases heq : s = sf
      · subst heq
        simp only [if_pos rfl, beq_self_eq_true, if_true]
        have harith : m s + 1 + cnt = m s + (cnt + 1) := by omega
        rw [harith]
      · have hbf : (sf == s) = false :=
          beq_eq_false_iff_ne.mpr (fun hc => heq hc.symm)
        simp only [if_neg heq, hbf, Bool.false_eq_true, if_false, Nat.add_zero]

/-- C1: for a batch handed to `downloadFiles`, collisions are resolved per
candidate in input order: the first occurrence of a sanitized name is used
as-is, and the occurrence preceded by `n > 0` equal sanitized names is
issued as `addFilenameCounter` of the name and `n` (the counter `' (n)'`
inserted before the extension, or appended without one). -/
theorem downloadFiles_collision_resolution (files : List Candidate) (i : Nat)
    (hi : i < files.length) :
    (downloadFilesPlan files)[i]? =
      some (
        let s := sanitizeFilename (files[i].filename)
        let n := (files.take i).countP (fun f => sanitizeFilename f.filename == s)
        if n = 0 then s else addFilenameCounter s n) := by
  have h := downloadFilesPlanAux_getElem files i (fun _ => 0) hi
  simpa using h

/-- Witness for C1: three candidates whose filenames all sanitize to
`report.pdf` are issued as `report.pdf`, `report (1).pdf`, `report (2).pdf`. -/
theorem downloadFiles_collision_resolution_witness :
    (downloadFilesPlan
        [{url := "u1", filename := "report.pdf", extension := "pdf"},
         {url := "u2", filename := "report.pdf", extension := "pdf"},
         {url := "u3", filename := "report.pdf", extension := "pdf"}])[0]? =
        some "report.pdf" ∧
    (downloadFilesPlan
        [{url := "u1", filename := "report.pdf", extension := "pdf"},
         {url := "u2", filename := "report.pdf", extension := "pdf"},
         {url := "u3", filename := "report.pdf", extension := "pdf"}])[1]? =
        some "report (1).pdf" ∧
    (downloadFilesPlan
        [{url := "u1", filename := "report.pdf", extension := "pdf"},
         {url := "u2", filename := "report.pdf", extension := "pdf"},
         {url := "u3", filename := "report.pdf", extension := "pdf"}])[2]? =
        some "report (2).pdf" := by
  refine ⟨?_, ?_, ?_⟩
  · rw [downloadFiles_collision_resolution _ 0 (by decide)]; decide
  · rw [downloadFiles_collision_resolution _ 1 (by decide)]; decide
  · rw [downloadFiles_collision_resolution _ 2 (by decide)]; decide

theorem mem_collapseRunsAux {p : Char → Bool} {r c : Char} :
    ∀ {b : Bool} {l : List Char}, c ∈ collapseRunsAux p r b l →
      c = r ∨ (c ∈ l ∧ p c = false) := by
  intro b l
  induction l generalizing b with
  | nil => intro h; simp [collapseRunsAux] at h
  | cons x xs ih =>
    intro h
    unfold collapseRunsAux at h
    by_cases hx : p x
    · rw [if_pos hx] at h
      by_cases hb : b
      · rw [if_pos hb] at h
        rcases ih h with h1 | ⟨h2, h3⟩
        · exact Or.inl h1
        · exact Or.inr ⟨List.mem_cons_of_mem x h2, h3⟩
      · rw [if_neg hb] at h
        rcases List.mem_cons.mp h with h1 | h1
        · exact Or.inl h1
        · rcases ih h1 with h2 | ⟨h3, h4⟩
          · exact Or.inl h2
          · exact Or.inr ⟨List.mem_cons_of_mem x h3, h4⟩
    · rw [if_neg hx] at h
      rcases List.mem_cons.mp h with h1 | h1
      · subst h1
        exact Or.inr ⟨List.mem_cons_self c xs, by simpa using hx⟩
      · rcases ih h1 with h2 | ⟨h3, h4⟩
        · exact Or.inl h2
        · exact Or.inr ⟨List.mem_cons_of_mem x h3, h4⟩

theorem mem_jsTrimL {c : Char} {l : List Char} (h : c ∈ jsTrimL l) : c ∈ l := by
  unfold jsTrimL at h
  rw [List.mem_reverse] at h
  have h2 := (List.dropWhile_sublist _).subset h
  rw [List.mem_reverse] at h2
  exact (List.dropWhile_sublist _).subset h2

theorem mem_stripEdgeDots {c : Char} {l : List Char} (h : c ∈ stripEdgeDots l) :
    c ∈ l := by
  unfold stripEdgeDots at h
  rw [List.mem_reverse] at h
  have h2 := (List.dropWhile_sublist _).subset h
  rw [List.mem_reverse] at h2
  exact (List.dropWhile_sublist _).subset h2

/-- C2 counterexample: the Resolver's cleaning step does not remove control
characters: `cleanFilename` on `"ab\x01"` keeps the `0x01` byte, so its
output can contain a control character. -/
theorem cleanFilename_keeps_control_char :
    (cleanFilename (['a', 'b', Char.ofNat 1].asString)).data.any
      (fun c => decide (c.toNat ≤ 0x1f)) = true := by decide

/-- C2 (amended): the Scheduler's `sanitizeFilename` output contains no
path separator and no control character; the Resolver's `cleanFilename`
output contains no path separator (but control characters outside the
whitespace classes are not removed by it). -/
theorem sanitization_separator_control_safety :
    (∀ (s : String), ∀ c ∈ (sanitizeFilename s).data,
        c ≠ '/' ∧ c ≠ '\\' ∧ 0x20 ≤ c.toNat) ∧
    (∀ (s : String), ∀ c ∈ (cleanFilename s).data, c ≠ '/' ∧ c ≠ '\\') := by
  have hdl : ∀ c ∈ ("download" : String).data,
      c ≠ '/' ∧ c ≠ '\\' ∧ 0x20 ≤ c.toNat := by decide
  constructor
  · intro s c h
    unfold sanitizeFilename at h
    by_cases hs : s = ""
    · rw [if_pos hs] at h
      exact hdl c h
    · rw [if_neg hs] at h
      simp only at h
      split at h
      · exact hdl c h
      · rw [List.asString] at h
        have h1 : c ∈ stripEdgeDots (jsTrimL (collapseRuns
            (fun c => isJsWhitespace c || c == '_') ' '
            (s.data.map (fun c => if isSwInvalidChar c then '_' else c)))) :=
          List.take_subset 180 _ h
        have h2 := mem_jsTrimL (mem_stripEdgeDots h1)
        rcases mem_collapseRunsAux h2 with h3 | ⟨h4, _⟩
        · subst h3; decide
        · rcases List.mem_map.mp h4 with ⟨a, _, ha2⟩
          by_cases hinv : isSwInvalidChar a
          · rw [if_pos hinv] at ha2
            subst ha2; decide
          · rw [if_neg hinv] at ha2
            subst ha2
            unfold isSwInvalidChar at hinv
            simp only [Bool.or_eq_true, not_or, List.contains, List.elem_eq_mem,
              decide_eq_true_eq] at hinv
            refine ⟨fun hc => hinv.1 (by rw [hc]; decide), 
                    fun hc => hinv.1 (by rw [hc]; decide), ?_⟩
            have := hinv.2
            omega
  · intro s c h
    unfold cleanFilename at h
    rw [List.asString] at h
    have h1 : c ∈ (collapseRuns isJsWhitespace ' '
        (collapseRuns (fun c => c == '\r' || c == '\n') ' '
          (jsTrimL s.data))).map (fun c => if isCsInvalidChar c then '-' else c) :=
      List.take_subset 80 _ h
    rcases List.mem_map.mp h1 with ⟨a, _, ha2⟩
    by_cases hinv : isCsInvalidChar a
    · rw [if_pos hinv] at ha2
      subst ha2; exact ⟨by decide, by decide⟩
    · rw [if_neg hinv] at ha2
      subst ha2
      unfold isCsInvalidChar at hinv
      simp only [List.contains, List.elem_eq_mem, decide_eq_true_eq] at hinv
      exact ⟨fun hc => hinv (by rw [hc]; decide),
             fun hc => hinv (by rw [hc]; decide)⟩

/-- Witness for C2's amended theorem at concrete inputs. -/
theorem sanitization_separator_control_safety_witness :
    (('a' : Char) ≠ '/' ∧ ('a' : Char) ≠ '\\' ∧ 0x20 ≤ ('a' : Char).toNat) ∧
    (('x' : Char) ≠ '/' ∧ ('x' : Char) ≠ '\\') :=
  ⟨sanitization_separator_control_safety.1 "a/b" 'a' (by decide),
   sanitization_separator_control_safety.2 "x<y" 'x' (by decide)⟩

/-- C3 counterexample: a link that triggers download-intent detection via
the explicit save-name attribute `download="report.pdf"` is issued with
extension `"pdf"`, not the unknown-download sentinel `"download"`. -/
theorem detectDownloadLink_extension_not_sentinel :
    (detectDownloadLink
        {attrs := [("download", "report.pdf")], textContent := "", className := ""}
        [] {} "https://e.com/x"
        (some {pathname := "/x", href := "https://e.com/x"})).map
      Candidate.extension = some "pdf" ∧ ("pdf" : String) ≠ "download" := by
  constructor
  · decide
  · decide

/-- C3 (amended): every candidate produced by download-intent detection has
`isInferredDownload = true` and extension `extractExtensionFromFilename` of
its resolved filename (the recognized lowercase trailing extension when
present, the unknown-download sentinel otherwise). -/
theorem detectDownloadLink_inferred (anchor : Element) (parents : List ParentCtx)
    (page : PageCtx) (href : String) (url : Option UrlParts) (c : Candidate)
    (h : detectDownloadLink anchor parents page href url = some c) :
    c.isInferredDownload = some true ∧
      c.extension = extractExtensionFromFilename c.filename := by
  unfold detectDownloadLink at h
  cases url with
  | none => exact absurd h (by simp)
  | some urlObj =>
    dsimp only at h
    split at h
    · rw [Option.some.injEq] at h
      subst h
      exact ⟨rfl, rfl⟩
    · split at h
      · rw [Option.some.injEq] at h
        subst h
        exact ⟨rfl, rfl⟩
      · exact absurd h (by simp)

/-- Witness for C3's amended theorem: a link with text `save` (and no
download attribute) triggers detection; the issued candidate carries
`isInferredDownload = true` and the extension computed from its filename. -/
theorem detectDownloadLink_inferred_witness :
    ({url := "https://e.com/f", filename := "download", extension := "download",
        isInferredDownload := some true} : Candidate).isInferredDownload = some true ∧
    ({url := "https://e.com/f", filename := "download", extension := "download",
        isInferredDownload := some true} : Candidate).extension =
      extractExtensionFromFilename
        ({url := "https://e.com/f", filename := "download", extension := "download",
            isInferredDownload := some true} : Candidate).filename :=
  detectDownloadLink_inferred
    {attrs := [], textContent := "save", className := ""} [] {} "https://e.com/f"
    (some {pathname := "/f", href := "https://e.com/f"}) _ (by decide)

/-- C4 counterexample: an ambiguous candidate answered from a fresh cache
entry gets the cached metadata merged, but the returned candidate does not
have `enriched = true` (the flag is only set on the fresh-probe path). -/
theorem enrich_cache_hit_not_marked :
    (enrichFileMetadata {url := "https://a.io/r", filename := "x", extension := "download"}
        (fun u => if u = "https://a.io/r" then
            some {timestamp := 0,
                  data := {filename := some "report.pdf", extension := some "pdf"}}
          else none)
        10 none).filename = "report.pdf" ∧
    (enrichFileMetadata {url := "https://a.io/r", filename := "x", extension := "download"}
        (fun u => if u = "https://a.io/r" then
            some {timestamp := 0,
                  data := {filename := some "report.pdf", extension := some "pdf"}}
          else none)
        10 none).enriched ≠ some true := by
  constructor
  · decide
  · decide

/-- C4 (amended): for an ambiguous candidate, a fresh successful probe
returns the candidate with the probe metadata merged and `enriched = true`;
a cache hit within the time-to-live returns the candidate with the cached
metadata merged but with the `enriched` field left unchanged. -/
theorem enrichFileMetadata_probe_and_cache (file : Candidate)
    (cache : String → Option CacheEntry) (now : Int) :
    (∀ (resp : ProbeResponse) (m : Metadata),
        hasGoodFilename file = false →
        (∀ e, cache file.url = some e → HEAD_CACHE_TTL ≤ now - e.timestamp) →
        fetchFileMetadata file.url resp = some m →
        enrichFileMetadata file cache now (some resp) =
          { mergeMetadata file m with enriched := some true }) ∧
    (∀ (probe : Option ProbeResponse) (entry : CacheEntry),
        hasGoodFilename file = false →
        cache file.url = some entry → now - entry.timestamp < HEAD_CACHE_TTL →
        enrichFileMetadata file cache now probe = mergeMetadata file entry.data ∧
          (mergeMetadata file entry.data).enriched = file.enriched) := by
  constructor
  · intro resp m hgood hstale hfetch
    unfold enrichFileMetadata
    rw [if_neg (by simp [hgood])]
    cases hc : cache file.url with
    | none =>
      simp only [hc]
      rw [show (some resp).bind (fetchFileMetadata file.url) = some m from hfetch]
    | some e =>
      have hst := hstale e hc
      simp only [hc]
      rw [if_neg (by omega)]
      rw [show (some resp).bind (fetchFileMetadata file.url) = some m from hfetch]
  · intro probe entry hgood hentry httl
    unfold enrichFileMetadata
    rw [if_neg (by simp [hgood]), hentry]
    dsimp only
    exact ⟨by rw [if_pos httl], rfl⟩

/-- Witness for C4's amended theorem: both the fresh-probe and the
cache-hit path applied at concrete inputs. -/
theorem enrichFileMetadata_probe_and_cache_witness :
    (enrichFileMetadata {url := "https://a.io/r", filename := "x", extension := "download"}
        (fun _ => none) 0
        (some {ok := true, contentDisposition := some "attachment; filename=a.pdf",
               responseUrl := "https://a.io/r"}) =
      { mergeMetadata {url := "https://a.io/r", filename := "x", extension := "download"}
          {filename := some "a.pdf", extension := some "pdf"} with enriched := some true }) ∧
    (enrichFileMetadata {url := "https://a.io/r", filename := "x", extension := "download"}
        (fun u => if u = "https://a.io/r" then
            some {timestamp := 0, data := {filename := some "b.pdf"}} else none)
        10 none =
      mergeMetadata {url := "https://a.io/r", filename := "x", extension := "download"}
        {filename := some "b.pdf"}) :=
  ⟨(enrichFileMetadata_probe_and_cache _ _ _).1 _ _ (by decide)
      (fun e he => Option.noConfusion he) (by decide),
   ((enrichFileMetadata_probe_and_cache _ _ _).2 none
      {timestamp := 0, data := {filename := some "b.pdf"}}
      (by decide) (by decide) (by decide)).1⟩

theorem enrichFilesAux_length (cache : String → Option CacheEntry) (now : Int)
    (probe : Nat → Option ProbeResponse) :
    ∀ (fs : List Candidate) (i0 : Nat),
      (enrichFilesAux cache now probe i0 fs).length = fs.length := by
  intro fs
  induction fs with
  | nil => intro i0; rfl
  | cons f fs ih => intro i0; simp [enrichFilesAux, ih]

theorem enrichFilesAux_getElem (cache : String → Option CacheEntry) (now : Int)
    (probe : Nat → Option ProbeResponse) :
    ∀ (fs : List Candidate) (i0 i : Nat) (f : Candidate), fs[i]? = some f →
      (enrichFilesAux cache now probe i0 fs)[i]? =
        some (enrichFileMetadata f cache now (probe (i0 + i))) := by
  intro fs
  induction fs with
  | nil => intro i0 i f h; simp at h
  | cons g fs ih =>
    intro i0 i f h
    match i with
    | 0 =>
      simp only [List.getElem?_cons_zero, Option.some.injEq] at h
      subst h
      simp [enrichFilesAux]
    | i + 1 =>
      simp only [List.getElem?_cons_succ] at h
      simp only [enrichFilesAux, List.getElem?_cons_succ]
      rw [ih (i0 + 1) i f h]
      have harith : i0 + 1 + i = i0 + (i + 1) := by omega
      rw [harith]

theorem enrichFileMetadata_selected (file : Candidate)
    (cache : String → Option CacheEntry) (now : Int)
    (probe : Option ProbeResponse) :
    (enrichFileMetadata file cache now probe).selected = file.selected := by
  unfold enrichFileMetadata
  by_cases hg : hasGoodFilename file
  · rw [if_pos hg]
  · rw [if_neg hg]
    dsimp only
    cases hc : cache file.url with
    | some e =>
      simp only [hc]
      split
      · rfl
      · cases probe.bind (fetchFileMetadata file.url) <;> rfl
    | none =>
      simp only [hc]
      cases probe.bind (fetchFileMetadata file.url) <;> rfl

/-- C5: enrichment returns a list of the same cardinality in the same
order; each candidate's outcome depends only on that candidate and its own
probe; when the probe fails (and the cache has no fresh entry) the
candidate is returned unmodified, not dropped. -/
theorem enrichFiles_cardinality_order_isolation :
    (∀ (files : List Candidate) (cache : String → Option CacheEntry) (now : Int)
        (probe : Nat → Option ProbeResponse),
        (enrichFilesWithMetadata files cache now probe).length = files.length) ∧
    (∀ (files : List Candidate) (cache : String → Option CacheEntry) (now : Int)
        (probe : Nat → Option ProbeResponse) (i : Nat) (f : Candidate),
        files[i]? = some f →
        (enrichFilesWithMetadata files cache now probe)[i]? =
          some (enrichFileMetadata f cache now (probe i))) ∧
    (∀ (file : Candidate) (cache : String → Option CacheEntry) (now : Int),
        (∀ e, cache file.url = some e → HEAD_CACHE_TTL ≤ now - e.timestamp) →
        enrichFileMetadata file cache now none = file) := by
  refine ⟨?_, ?_, ?_⟩
  · intro files cache now probe
    exact enrichFilesAux_length cache now probe files 0
  · intro files cache now probe i f h
    have := enrichFilesAux_getElem cache now probe files 0 i f h
    simpa [enrichFilesWithMetadata] using this
  · intro file cache now hstale
    unfold enrichFileMetadata
    by_cases hg : hasGoodFilename file
    · rw [if_pos hg]
    · rw [if_neg hg]
      dsimp only
      cases hc : cache file.url with
      | some e =>
        have := hstale e hc
        simp only [hc]
        rw [if_neg (by omega)]
        rfl
      | none =>
        simp only [hc]
        rfl

/-- Witness for C5: a two-candidate batch where the first probe fails and
the second succeeds; the failed candidate is returned unchanged, the
successful one enriched, in order. -/
theorem enrichFiles_cardinality_order_isolation_witness :
    ((enrichFilesWithMetadata
        [{url := "https://h.io/a", filename := "a", extension := "download"},
         {url := "https://h.io/b", filename := "b", extension := "download"}]
        (fun _ => none) 0
        (fun i => if i = 1 then
            some {ok := true, contentDisposition := some "attachment; filename=b.pdf",
                  responseUrl := "https://h.io/b"}
          else none))[1]? =
      some (enrichFileMetadata {url := "https://h.io/b", filename := "b", extension := "download"}
        (fun _ => none) 0
        (some {ok := true, contentDisposition := some "attachment; filename=b.pdf",
               responseUrl := "https://h.io/b"}))) ∧
    (enrichFileMetadata {url := "https://h.io/a", filename := "a", extension := "download"}
        (fun _ => none) 0 none =
      {url := "https://h.io/a", filename := "a", extension := "download"}) :=
  ⟨enrichFiles_cardinality_order_isolation.2.1 _ _ 0 _ 1 _ (by decide),
   enrichFiles_cardinality_order_isolation.2.2 _ _ 0
     (fun e he => Option.noConfusion he)⟩

/-- C6: a candidate with `selected = true` keeps it across merges: the
service worker's enrichment merge never touches `selected`, the popup's
enrichment merge explicitly restores it, and the live re-scan merge keys
the old selection by URL onto the new candidates. -/
theorem selection_preserved_on_merge :
    (∀ (file : Candidate) (cache : String → Option CacheEntry) (now : Int)
        (probe : Option ProbeResponse),
        (enrichFileMetadata file cache now probe).selected = file.selected) ∧
    (∀ (files respFiles : List Candidate) (i : Nat),
        ((enrichFilesPopupMerge files respFiles)[i]?).map Candidate.selected =
          (files[i]?).map Candidate.selected) ∧
    (∀ (prior newFiles : List Candidate) (i : Nat) (nf f : Candidate),
        newFiles[i]? = some nf →
        mapLastByUrl prior nf.url = some f → f.selected = some true →
        ((handleFilesChanged prior newFiles)[i]?).map Candidate.selected =
          some (some true)) := by
  refine ⟨?_, ?_, ?_⟩
  · exact enrichFileMetadata_selected
  · intro files respFiles i
    unfold enrichFilesPopupMerge
    rw [List.getElem?_map]
    cases files[i]? with
    | none => rfl
    | some f =>
      simp only [Option.map_some']
      cases mapLastByUrl respFiles f.url <;> rfl
  · intro prior newFiles i nf f h1 h2 h3
    unfold handleFilesChanged
    rw [List.getElem?_map, h1]
    simp only [Option.map_some', Option.some.injEq]
    rw [h2]
    simp [h3]

/-- Witness for C6: a previously selected candidate for URL `X` survives a
live re-scan merge with `selected = true`. -/
theorem selection_preserved_on_merge_witness :
    ((handleFilesChanged
        [{url := "https://h.io/x", filename := "f", extension := "pdf",
          selected := some true}]
        [{url := "https://h.io/x", filename := "f2", extension := "pdf",
          selected := some false}])[0]?).map Candidate.selected =
      some (some true) :=
  selection_preserved_on_merge.2.2 _ _ 0
    {url := "https://h.io/x", filename := "f2", extension := "pdf",
     selected := some false}
    {url := "https://h.io/x", filename := "f", extension := "pdf",
     selected := some true}
    (by decide) (by decide) (by decide)

/-- C7: evaluation at the failing input.  An anchor whose `title` attribute
is two spaces defeats the non-empty contract: the 2-character whitespace
title passes `isUsefulFilename` (the length check precedes trimming), and
`cleanFilename` then trims it to the empty string, so the Resolver returns
`""` instead of a non-empty name. -/
theorem extractBestFilename_whitespace_title_empty :
    extractBestFilename {attrs := [("title", "  ")], textContent := "", className := ""}
      [] {} none = "" := by decide

/-- C8: `parseContentDisposition` tries the extended (RFC 5987) form, the
quoted form, the unquoted form, and the generic inline-name pattern, in
that order, returning the first successful extraction; when none applies
no filename is derived. -/
theorem parseContentDisposition_priority (header : String) :
    (∀ r, cdExtendedMatch header = some r →
        parseContentDisposition header = some r) ∧
    (cdExtendedMatch header = none → ∀ r, cdQuotedMatch header = some r →
        parseContentDisposition header = some r) ∧
    (cdExtendedMatch header = none → cdQuotedMatch header = none →
        ∀ r, cdUnquotedMatch header = some r →
        parseContentDisposition header = some r) ∧
    (cdExtendedMatch header = none → cdQuotedMatch header = none →
        cdUnquotedMatch header = none → ∀ r, cdInlineMatch header = some r →
        parseContentDisposition header = some r) ∧
    (cdExtendedMatch header = none → cdQuotedMatch header = none →
        cdUnquotedMatch header = none → cdInlineMatch header = none →
        parseContentDisposition header = none) := by
  by_cases hh : header = ""
  · subst hh
    have h1 : cdExtendedMatch "" = none := by decide
    have h2 : cdQuotedMatch "" = none := by decide
    have h3 : cdUnquotedMatch "" = none := by decide
    have h4 : cdInlineMatch "" = none := by decide
    refine ⟨?_, ?_, ?_, ?_, ?_⟩
    · intro r h; rw [h1] at h; exact Option.noConfusion h
    · intro _ r h; rw [h2] at h; exact Option.noConfusion h
    · intro _ _ r h; rw [h3] at h; exact Option.noConfusion h
    · intro _ _ _ r h; rw [h4] at h; exact Option.noConfusion h
    · intro _ _ _ _; decide
  · unfold parseContentDisposition
    rw [if_neg hh]
    refine ⟨?_, ?_, ?_, ?_, ?_⟩
    · intro r h; rw [h]; rfl
    · intro h1 r h; rw [h1, h]; rfl
    · intro h1 h2 r h; rw [h1, h2, h]; rfl
    · intro h1 h2 h3 r h; rw [h1, h2, h3, h]; rfl
    · intro h1 h2 h3 h4; rw [h1, h2, h3, h4]; rfl

/-- Witness for C8: a header without the extended form falls to the quoted
form, whose (trimmed) capture is returned. -/
theorem parseContentDisposition_priority_witness :
    parseContentDisposition "attachment; filename=\"my report.pdf\"" =
      some "my report.pdf" :=
  (parseContentDisposition_priority _).2.1 (by decide) _ (by decide)

theorem jsExtMatch_alnum {f e : String} (h : jsExtMatch f = some e) :
    e ≠ "" ∧ e.data.all isAsciiAlnum = true := by
  unfold jsExtMatch at h
  dsimp only at h
  split at h
  · exact Option.noConfusion h
  · rename_i hrun
    split at h
    · rw [Option.some.injEq] at h
      subst h
      constructor
      · intro hc
        apply hrun
        have hd := congrArg String.data hc
        simp only [List.asString] at hd
        simpa using hd
      · rw [List.all_eq_true]
        intro c hcmem
        simp only [List.asString] at hcmem
        rw [List.mem_reverse] at hcmem
        exact List.mem_takeWhile_imp hcmem
    · exact Option.noConfusion h

theorem jsToLower_lower_alnum {e : String} (h1 : e ≠ "")
    (h2 : e.data.all isAsciiAlnum = true) :
    isLowerAlnumStr (jsToLower e) = true := by
  unfold isLowerAlnumStr jsToLower
  rw [Bool.and_eq_true]
  constructor
  · simp only [List.asString, ne_eq, decide_eq_true_eq]
    intro hc
    apply h1
    have hd : e.data.map jsToLowerChar = [] := by
      have := congrArg String.data hc
      simpa using this
    have hdata : e.data = [] := by simpa using hd
    exact String.ext hdata
  · rw [List.all_eq_true]
    intro c hc
    simp only [List.asString] at hc
    rcases List.mem_map.mp hc with ⟨a, ha1, ha2⟩
    subst ha2
    exact jsToLowerChar_lower_alnum (by
      rw [List.all_eq_true] at h2
      exact h2 a ha1)

theorem jsToLowerChar_idem (c : Char) :
    jsToLowerChar (jsToLowerChar c) = jsToLowerChar c := by
  unfold jsToLowerChar
  by_cases hg : ('A' ≤ c && c ≤ 'Z') = true
  · rw [if_pos hg]
    simp only [Bool.and_eq_true, decide_eq_true_eq] at hg
    have h1 := char_le_iff.mp hg.1
    have h2 := char_le_iff.mp hg.2
    rw [char_toNat_A] at h1
    rw [char_toNat_Z] at h2
    have ht : (Char.ofNat (c.toNat + 32)).toNat = c.toNat + 32 :=
      charOfNat_toNat (by omega)
    rw [if_neg ?hng]
    case hng =>
      simp only [Bool.and_eq_true, decide_eq_true_eq, not_and]
      intro hA
      have := char_le_iff.mp hA
      rw [char_toNat_A, ht] at this
      intro hZ
      have h3 := char_le_iff.mp hZ
      rw [char_toNat_Z, ht] at h3
      omega
  · rw [if_neg hg, if_neg hg]

theorem jsToLower_idem (s : String) : jsToLower (jsToLower s) = jsToLower s := by
  unfold jsToLower
  simp only [List.asString, List.map_map]
  congr 1
  apply List.map_congr_left
  intro a _
  exact jsToLowerChar_idem a

/-- C9: the inferred extension is the lowercased trailing extension when it
belongs to the recognized set and the `'download'` sentinel otherwise, and
the extension field of every candidate built by the URL extractor is a
non-empty lowercase alphanumeric string. -/
theorem extension_normalization :
    (∀ (f e : String), jsExtMatch f = some e →
        SUPPORTED_EXTENSIONS.contains (jsToLower e) = true →
        extractExtensionFromFilename f = jsToLower e) ∧
    (∀ (f : String), (∀ e, jsExtMatch f = some e →
        SUPPORTED_EXTENSIONS.contains (jsToLower e) = false) →
        extractExtensionFromFilename f = "download") ∧
    (∀ (f : String), isLowerAlnumStr (extractExtensionFromFilename f) = true) ∧
    (∀ (u : Option UrlParts) (c : Candidate), extractFileInfo u = some c →
        isLowerAlnumStr c.extension = true) := by
  have hsup : ∀ x ∈ SUPPORTED_EXTENSIONS, isLowerAlnumStr x = true := by decide
  have hcontains : ∀ (x : String), SUPPORTED_EXTENSIONS.contains x = true →
      x ∈ SUPPORTED_EXTENSIONS := by
    intro x hx
    simpa [List.contains, List.elem_eq_mem] using hx
  refine ⟨?_, ?_, ?_, ?_⟩
  · intro f e h1 h2
    unfold extractExtensionFromFilename
    rw [h1]
    dsimp only
    rw [if_pos h2]
  · intro f h
    unfold extractExtensionFromFilename
    cases he : jsExtMatch f with
    | none => rfl
    | some e =>
      dsimp only
      rw [if_neg (by rw [h e he]; exact Bool.false_ne_true)]
  · intro f
    unfold extractExtensionFromFilename
    cases he : jsExtMatch f with
    | none => decide
    | some e =>
      dsimp only
      by_cases hc : SUPPORTED_EXTENSIONS.contains (jsToLower e) = true
      · rw [if_pos hc]
        exact hsup _ (hcontains _ hc)
      · rw [if_neg hc]
        decide
  · intro u c h
    unfold extractFileInfo at h
    cases u with
    | none => exact Option.noConfusion h
    | some urlObj =>
      dsimp only at h
      split at h
      · exact Option.noConfusion h
      · split at h
        · rename_i decoded em hem
          rw [Option.some.injEq] at h
          subst h
          have halnum := jsExtMatch_alnum hem
          exact jsToLower_lower_alnum halnum.1 halnum.2
        · split at h
          · split at h
            · rename_i decoded hem fp hfp hcond
              rw [Option.some.injEq] at h
              subst h
              rw [Bool.and_eq_true] at hcond
              have hmem : jsToLower fp ∈ SUPPORTED_EXTENSIONS := by
                have hiso := hcond.2
                unfold isSupported at hiso
                rw [jsToLower_idem] at hiso
                exact hcontains _ hiso
              exact hsup _ hmem
            · exact Option.noConfusion h
          · exact Option.noConfusion h

/-- Witness for C9: a mixed-case recognized extension is lowercased, and a
candidate from the URL extractor has a lowercase alphanumeric extension. -/
theorem extension_normalization_witness :
    extractExtensionFromFilename "Photo.PDF" = jsToLower "PDF" ∧
    isLowerAlnumStr (({url := "https://e.com/Photo.PDF",
                       filename := "Photo.PDF",
                       extension := "pdf"} : Candidate).extension) = true :=
  ⟨extension_normalization.1 "Photo.PDF" "PDF" (by decide) (by decide),
   extension_normalization.2.2.2
     (some {pathname := "/Photo.PDF", href := "https://e.com/Photo.PDF"}) _ (by decide)⟩

/-- C10: enrichment never changes the `url` identity key: the metadata a
probe can merge holds only `filename`, `extension`, `size` and `finalUrl`,
so the per-candidate merge and the batch enrichment both preserve `url`. -/
theorem enrichment_preserves_url :
    (∀ (file : Candidate) (cache : String → Option CacheEntry) (now : Int)
        (probe : Option ProbeResponse),
        (enrichFileMetadata file cache now probe).url = file.url) ∧
    (∀ (files : List Candidate) (cache : String → Option CacheEntry) (now : Int)
        (probe : Nat → Option ProbeResponse) (i : Nat),
        ((enrichFilesWithMetadata files cache now probe)[i]?).map Candidate.url =
          (files[i]?).map Candidate.url) := by
  have hone : ∀ (file : Candidate) (cache : String → Option CacheEntry) (now : Int)
      (probe : Option ProbeResponse),
      (enrichFileMetadata file cache now probe).url = file.url := by
    intro file cache now probe
    unfold enrichFileMetadata
    by_cases hg : hasGoodFilename file
    · rw [if_pos hg]
    · rw [if_neg hg]
      dsimp only
      cases hc : cache file.url with
      | some e =>
        simp only [hc]
        split
        · rfl
        · cases probe.bind (fetchFileMetadata file.url) <;> rfl
      | none =>
        simp only [hc]
        cases probe.bind (fetchFileMetadata file.url) <;> rfl
  constructor
  · exact hone
  · intro files cache now probe i
    cases hfi : files[i]? with
    | some f =>
      have hg := enrichFilesAux_getElem cache now probe files 0 i f hfi
      unfold enrichFilesWithMetadata
      rw [hg]
      simp [Option.map_some', hone]
    | none =>
      have hlen : files.length ≤ i := by
        by_contra hlt
        push_neg at hlt
        rw [List.getElem?_eq_getElem hlt] at hfi
        exact Option.noConfusion hfi
      have h2 : (enrichFilesWithMetadata files cache now probe)[i]? = none := by
        apply List.getElem?_eq_none
        rw [show (enrichFilesWithMetadata files cache now probe).length = files.length
          from enrichFilesAux_length cache now probe files 0]
        exact hlen
      rw [h2]
